import Mathlib

set_option maxRecDepth 4000

/-!
Shallow embedding of the `3d-tools` repository (two Python source files:
`formats/swmaps.py` and `unit_translate.py`) used to settle the frozen
specification claims.

Conventions of the embedding:
* a text line is a `List Char`;
* Python `float` values are modelled as rationals (`ℚ`), and Python's
  `float(s)` conversion (on finite decimal literals, with optional sign,
  fraction and exponent, surrounded by optional whitespace) is modelled by
  `parseFloat`, which returns `none` exactly when `float` raises `ValueError`;
* an uncaught Python exception is modelled by `Except.error`;
* the regular-expression match of `swmaps.py` (`re.match` of the version-2
  column pattern) is compiled into the deterministic field-by-field parser
  `matchV2`; the determinism argument is that every `[^,]*` sub-pattern of the
  column pattern is followed by a literal `,` (so each one must extend exactly
  to the next comma), and inside the `POINT Z` tuple the three groups are
  determined by the last two spaces of the comma-free tuple region.
-/

/-- Numeric value of a list of decimal digit characters, as Python's `int`
computes it for a string of digits (`digitsToNat [] = 0` never occurs for a
`[0-9]+` capture, which is nonempty). -/
def digitsToNat (ds : List Char) : Nat :=
  ds.foldl (fun a c => 10 * a + (c.toNat - 48)) 0

/-- Exponent suffix of a Python float literal: an optional sign followed by at
least one digit, then optional trailing whitespace and nothing else. -/
def parseFloatExp (sgn base : ℚ) (cs : List Char) : Option ℚ :=
  let cs' := if cs.head? = some '+' ∨ cs.head? = some '-' then cs.tail else cs
  let ed := cs'.takeWhile Char.isDigit
  let rest := cs'.dropWhile Char.isDigit
  if ed = [] then none
  else if rest.dropWhile Char.isWhitespace = [] then
    some (sgn * base *
      (10 : ℚ) ^ ((if cs.head? = some '-' then (-1 : Int) else 1) * (digitsToNat ed : Int)))
  else none

/-- Model of Python's `float(s)` on finite decimal literals: optional
whitespace, optional sign, digits with an optional fractional part (at least
one digit overall), an optional exponent, optional whitespace.  Returns `none`
exactly when `float` raises `ValueError` for such strings. -/
def parseFloat (cs : List Char) : Option ℚ :=
  let cs₀ := cs.dropWhile Char.isWhitespace
  let cs₁ := if cs₀.head? = some '+' ∨ cs₀.head? = some '-' then cs₀.tail else cs₀
  let ip := cs₁.takeWhile Char.isDigit
  let cs₂ := cs₁.dropWhile Char.isDigit
  let fp := if cs₂.head? = some '.' then cs₂.tail.takeWhile Char.isDigit else []
  let cs₃ := if cs₂.head? = some '.' then cs₂.tail.dropWhile Char.isDigit else cs₂
  if ip = [] ∧ fp = [] then none
  else
    let sgn : ℚ := if cs₀.head? = some '-' then -1 else 1
    let base : ℚ := (digitsToNat ip : ℚ) + (digitsToNat fp : ℚ) / (10 : ℚ) ^ fp.length
    if cs₃.head? = some 'e' ∨ cs₃.head? = some 'E' then parseFloatExp sgn base cs₃.tail
    else if cs₃.dropWhile Char.isWhitespace = [] then some (sgn * base) else none

/-- Consume a literal comma. -/
def expectComma : List Char → Option (List Char)
  | ',' :: r => some r
  | _ => none

/-- Consume one `[^,]*,` sub-pattern of the column pattern: a maximal comma-free
run followed by a mandatory comma (the run is discarded). -/
def skipField (cs : List Char) : Option (List Char) :=
  expectComma (cs.dropWhile (fun c => c != ','))

/-- Consume one `([^,]*),` sub-pattern: a maximal comma-free run followed by a
mandatory comma, returning the captured run. -/
def captureField (cs : List Char) : Option (List Char × List Char) :=
  match expectComma (cs.dropWhile (fun c => c != ',')) with
  | some r => some (cs.takeWhile (fun c => c != ','), r)
  | none => none

/-- Boolean test that `pat` is an initial segment of `cs`. -/
def startsWith : List Char → List Char → Bool
  | [], _ => true
  | _ :: _, [] => false
  | p :: ps, c :: cs => p == c && startsWith ps cs

/-- Consume an exact literal. -/
def expectLit (pat cs : List Char) : Option (List Char) :=
  if startsWith pat cs then some (cs.drop pat.length) else none

/-- Split a list at its last space: `splitLastSpace cs = some (pre, post)` with
`cs = pre ++ ' ' :: post` and `post` space-free; `none` when there is no
space.  This is how the greedy `([^,]*) ([^,]*)` backtracking of the column
pattern resolves the final separator space. -/
def splitLastSpace (cs : List Char) : Option (List Char × List Char) :=
  match cs.reverse.dropWhile (fun c => c != ' ') with
  | ' ' :: pre => some (pre.reverse, (cs.reverse.takeWhile (fun c => c != ' ')).reverse)
  | _ => none

/-- Resolution of `([^,]*) ([^,]*) ([^,]*)` on the comma-free interior of the
geometry tuple: the greedy match puts the last space before the third group and
the second-to-last space before the second group. -/
def tupleSplit (s : List Char) : Option (List Char × List Char × List Char) :=
  (splitLastSpace s).bind fun pg =>
  (splitLastSpace pg.1).bind fun gg =>
  some (gg.1, gg.2, pg.2)

/-- Consume the closing parenthesis of the tuple sub-pattern: the comma-free
tuple
region must end with a literal `)`, which is removed. -/
def expectLastParen (tup : List Char) : Option (List Char) :=
  if tup.getLast? = some ')' then some tup.dropLast else none

/-- The captured groups of the version-2 column pattern
`([0-9]+),[^,]*,([^,]*),POINT Z \(([^,]*) ([^,]*) ([^,]*)\),[^,]*,[^,]*,[^,]*,([^,]*),[^,]*,[^,]*,[^,]*,[^,]*,[^,]*`. -/
structure Groups where
  g1 : List Char
  g2 : List Char
  g3 : List Char
  g4 : List Char
  g5 : List Char
  g6 : List Char
deriving DecidableEq, Repr

/-- `self.line_re.match(l)` for `FORMAT_VER = 2` of `swmaps.py`: the anchored
prefix match of the version-2 column pattern, returning the captured groups.
Every `[^,]*` of the pattern is followed by a literal comma except the last
one (which always matches), so the match is the deterministic field-by-field
parse below; the trailing `[^,]*` needs no check. -/
def matchV2 (l : List Char) : Option Groups :=
  if l.takeWhile Char.isDigit = [] then none else
  (expectComma (l.dropWhile Char.isDigit)).bind fun r1 =>
  (skipField r1).bind fun r2 =>
  (captureField r2).bind fun c1 =>
  (expectLit ("POINT Z (".data) c1.2).bind fun r4 =>
  (captureField r4).bind fun c2 =>
  (expectLastParen c2.1).bind fun s =>
  (tupleSplit s).bind fun tup3 =>
  (skipField c2.2).bind fun r6 =>
  (skipField r6).bind fun r7 =>
  (skipField r7).bind fun r8 =>
  (captureField r8).bind fun c3 =>
  (skipField c3.2).bind fun r10 =>
  (skipField r10).bind fun r11 =>
  (skipField r11).bind fun r12 =>
  (skipField r12).bind fun _ =>
  some ⟨l.takeWhile Char.isDigit, c1.1, tup3.1, tup3.2.1, tup3.2.2, c3.1⟩

/-- `self.header_re.match(l)`: the header pattern `ID,Geometry,Remarks,`
contains no regex metacharacter, so `re.match` is a literal prefix test. -/
def matchesHeader (l : List Char) : Bool :=
  startsWith ("ID,Geometry,Remarks,".data) l

/-- The record model `PointPNEZD` of `swmaps.py` (a `NamedTuple`). -/
structure PointPNEZD where
  point : Int
  northing : ℚ
  easting : ℚ
  elevation_m : ℚ
  description : List Char
deriving DecidableEq, Repr

/-- The version-2 record construction of `parse_points_csv` on a matched line:
`descr = m.group(2)`, `easting = float(m.group(3))`,
`northing = float(m.group(4))`, `z_m = float(m.group(6))`,
`PointPNEZD(int(m.group(1)) + point_offset, northing, easting, z_m, descr)`.
A `none` result models a `ValueError` escaping from `float`. -/
def recordOfGroups (point_offset : Int) (g : Groups) : Option PointPNEZD :=
  (parseFloat g.g3).bind fun easting =>
  (parseFloat g.g4).bind fun northing =>
  (parseFloat g.g6).bind fun z_m =>
  some ⟨(digitsToNat g.g1 : Int) + point_offset, northing, easting, z_m, g.g2⟩

/-- The loop of `SWMaps.parse_points_csv`: `b` is the `found_header` flag,
`acc` the `points` list built so far.  An uncaught `ValueError` on a matched
line aborts the whole loop (`Except.error` carries the offending line). -/
def parseLoop (point_offset : Int) :
    List (List Char) → Bool → List PointPNEZD → Except (List Char) (Bool × List PointPNEZD)
  | [], b, acc => .ok (b, acc)
  | l :: ls, b, acc =>
    if !b && matchesHeader l then parseLoop point_offset ls true acc
    else
      match matchV2 l with
      | none => parseLoop point_offset ls b acc
      | some g =>
        match recordOfGroups point_offset g with
        | some p => parseLoop point_offset ls b (acc ++ [p])
        | none => .error l

/-- `SWMaps.parse_points_csv(point_offset)` on a stream of input lines:
returns the list of parsed records, or the line on which an uncaught
`ValueError` aborted the run. -/
def parse_points_csv (point_offset : Int) (lines : List (List Char)) :
    Except (List Char) (List PointPNEZD) :=
  match parseLoop point_offset lines false [] with
  | .ok (_, pts) => .ok pts
  | .error e => .error e

/-- `METER_PER_US_SURVEY_FT = 0.30480061` of `swmaps.py`. -/
def METER_PER_US_SURVEY_FT : ℚ := 0.30480061

/-- `PNEZDFile.print_line`: the emitted data line, as its five comma-separated
fields in emission order
`f"{p.point},{p.northing},{p.easting},{elevation},{p.description}"`, with
`elevation = p.elevation_m / METER_PER_US_SURVEY_FT` when `convert_to_feet`
and `p.elevation_m` otherwise. -/
def print_line (p : PointPNEZD) (convert_to_feet : Bool) :
    Int × ℚ × ℚ × ℚ × List Char :=
  let elevation := if convert_to_feet then p.elevation_m / METER_PER_US_SURVEY_FT else p.elevation_m
  (p.point, p.northing, p.easting, elevation, p.description)

/-- Adding a constant offset to the id of a record (the effect of
`--renumber`). -/
def renumber (k : Int) (p : PointPNEZD) : PointPNEZD :=
  { p with point := p.point + k }

/-- Join fields with the comma delimiter (the f-string of `print_line`). -/
def joinComma : List (List Char) → List Char
  | [] => []
  | [f] => f
  | f :: fs => f ++ ',' :: joinComma fs

/-- Split a line at every comma delimiter (how a downstream consumer of the
PNEZD line recovers its fields). -/
def splitComma : List Char → List (List Char)
  | [] => [[]]
  | c :: rest =>
    if c = ',' then [] :: splitComma rest
    else
      match splitComma rest with
      | f :: fs => (c :: f) :: fs
      | [] => [[c]]

/-- The five fields of the data line emitted by `print_line`, rendered to text
by a rendering `ri` of the id and `rq` of the floats. -/
def print_line_fields (ri : Int → List Char) (rq : ℚ → List Char)
    (p : PointPNEZD) (convert_to_feet : Bool) : List (List Char) :=
  let t := print_line p convert_to_feet
  [ri t.1, rq t.2.1, rq t.2.2.1, rq t.2.2.2.1, t.2.2.2.2]

/-- The emitted data line of `print_line` as one string of characters. -/
def print_line_chars (ri : Int → List Char) (rq : ℚ → List Char)
    (p : PointPNEZD) (convert_to_feet : Bool) : List Char :=
  joinComma (print_line_fields ri rq p convert_to_feet)

/-- `FT_PER_METER = 3.2808399` of `unit_translate.py`. -/
def FT_PER_METER : ℚ := 3.2808399

/-- One field of a rewritten row of `unit_translate.py`: the row written out is
`[row[0], row[1], row[2], float(row[3])/FT_PER_METER, row[4]]`, a mix of the
original text fields and one number. -/
inductive OutField where
  | text : List Char → OutField
  | num : ℚ → OutField
deriving DecidableEq, Repr

/-- Python's `row[i]` on a list: `IndexError` when the index is out of range. -/
def getIdx (row : List (List Char)) (i : Nat) : Except String (List Char) :=
  match row.get? i with
  | some s => .ok s
  | none => .error "IndexError"

/-- The body of the `unit_translate.py` loop for one row:
`[row[0], row[1], row[2], float(row[3])/FT_PER_METER, row[4]]`, evaluated left
to right, with `IndexError` and `ValueError` propagating uncaught. -/
def processRow (row : List (List Char)) : Except String (List OutField) :=
  match getIdx row 0 with
  | .error e => .error e
  | .ok a =>
  match getIdx row 1 with
  | .error e => .error e
  | .ok b =>
  match getIdx row 2 with
  | .error e => .error e
  | .ok c =>
  match getIdx row 3 with
  | .error e => .error e
  | .ok d =>
  match parseFloat d with
  | none => .error "ValueError"
  | some q =>
  match getIdx row 4 with
  | .error e => .error e
  | .ok e =>
    .ok [OutField.text a, OutField.text b, OutField.text c, OutField.num (q / FT_PER_METER), OutField.text e]

/-- The whole `unit_translate.py` loop: the `output` list it builds, or the
uncaught exception that aborted the run. -/
def unitTranslate : List (List (List Char)) → Except String (List (List OutField))
  | [] => .ok []
  | row :: rows =>
    match processRow row with
    | .error e => .error e
    | .ok o =>
      match unitTranslate rows with
      | .error e => .error e
      | .ok os => .ok (o :: os)

/-- What `unit_translate.py` actually writes to standard output: the rewritten
rows are buffered in `output` and written by `writer.writerows(output)` only
after the loop has consumed the whole input, so an uncaught exception in the
loop means nothing at all is written. -/
def unitTranslateOutput (rows : List (List (List Char))) : List (List OutField) :=
  match unitTranslate rows with
  | .ok out => out
  | .error _ => []

/-- A canonical well-formed version-2 data line assembled from its components:
id digits, a timestamp field `t`, a description `d`, the tuple components
`e n z`, the eight comma-terminated fields after the tuple, and an arbitrary
tail (the final `[^,]*` of the pattern puts no constraint on it). -/
def mkLineV2 (idd t d e n z q1 q2 q3 q4 q5 q6 q7 q8 tail : List Char) : List Char :=
  idd ++ ',' :: (t ++ ',' :: (d ++ ',' :: ("POINT Z (".data ++
    (e ++ ' ' :: (n ++ ' ' :: (z ++ ')' :: ',' :: (q1 ++ ',' :: (q2 ++ ',' :: (q3 ++ ',' ::
      (q4 ++ ',' :: (q5 ++ ',' :: (q6 ++ ',' :: (q7 ++ ',' :: (q8 ++ ',' :: tail))))))))))))))

/-- The example input line of the source comments and of the spec (`2023 Aug`
format). -/
def exampleLine : List Char :=
  ("54,08/25/2023 12:43:39.500 PDT,pto,POINT Z (-112.83461149 39.57328935 1510.741)," ++
   "39.573289348,-119.834611492,1510.741,1534.672,2.050,4,0.001,0.0,0.010,0.010").data

/-- The groups the version-2 pattern captures on `exampleLine`. -/
def exampleGroups : Groups :=
  ⟨"54".data, "pto".data, "-112.83461149".data, "39.57328935".data,
   "1510.741".data, "1534.672".data⟩

/-- The record `parse_points_csv` builds from `exampleLine` (with offset 0). -/
def examplePoint : PointPNEZD :=
  ⟨54, 39.57328935, -112.83461149, 1534.672, "pto".data⟩

/-- A line that matches the version-2 column pattern structurally but whose
tuple components are not numeric, so `float` raises `ValueError` on it. -/
def badLine : List Char :=
  "1,x,d,POINT Z (a b c),p,q,r,s,t,u,v,w,y".data

deriving instance DecidableEq for Except

/-! ### Basic lemmas about the field-consuming steps -/

theorem takeWhile_append_cons {p : Char → Bool} {xs : List Char} {y : Char}
    (h1 : ∀ c ∈ xs, p c = true) (h2 : p y = false) (ys : List Char) :
    (xs ++ y :: ys).takeWhile p = xs := by
  induction xs with
  | nil => simp [List.takeWhile_cons, h2]
  | cons a as ih =>
    have ha : p a = true := h1 a (by simp)
    simp only [List.cons_append, List.takeWhile_cons, ha, if_true]
    rw [ih (fun c hc => h1 c (by simp [hc]))]

theorem dropWhile_append_cons {p : Char → Bool} {xs : List Char} {y : Char}
    (h1 : ∀ c ∈ xs, p c = true) (h2 : p y = false) (ys : List Char) :
    (xs ++ y :: ys).dropWhile p = y :: ys := by
  induction xs with
  | nil => simp [List.dropWhile_cons, h2]
  | cons a as ih =>
    have ha : p a = true := h1 a (by simp)
    simp only [List.cons_append, List.dropWhile_cons, ha, if_true]
    exact ih (fun c hc => h1 c (by simp [hc]))

theorem bne_comma_of_not_mem {xs : List Char} (h : ',' ∉ xs) :
    ∀ c ∈ xs, (c != ',') = true := by
  intro c hc
  exact bne_iff_ne.mpr (fun hcc => h (hcc ▸ hc))

theorem expectComma_cons (r : List Char) : expectComma (',' :: r) = some r := rfl

theorem captureField_append {f : List Char} (hf : ',' ∉ f) (r : List Char) :
    captureField (f ++ ',' :: r) = some (f, r) := by
  unfold captureField
  rw [dropWhile_append_cons (bne_comma_of_not_mem hf) (by decide),
    takeWhile_append_cons (bne_comma_of_not_mem hf) (by decide)]
  rfl

theorem skipField_append {f : List Char} (hf : ',' ∉ f) (r : List Char) :
    skipField (f ++ ',' :: r) = some r := by
  unfold skipField
  rw [dropWhile_append_cons (bne_comma_of_not_mem hf) (by decide)]
  rfl

theorem startsWith_append (pat r : List Char) : startsWith pat (pat ++ r) = true := by
  induction pat with
  | nil => rfl
  | cons a as ih => simp [startsWith, ih]

theorem expectLit_append (pat r : List Char) : expectLit pat (pat ++ r) = some r := by
  unfold expectLit
  rw [startsWith_append, if_pos rfl, List.drop_left]

theorem expectLastParen_concat (xs : List Char) :
    expectLastParen (xs ++ [')']) = some xs := by
  unfold expectLastParen
  rw [List.getLast?_concat, if_pos rfl, List.dropLast_concat]

theorem splitLastSpace_append {ys : List Char} (hy : ' ' ∉ ys) (xs : List Char) :
    splitLastSpace (xs ++ ' ' :: ys) = some (xs, ys) := by
  unfold splitLastSpace
  have hrev : (xs ++ ' ' :: ys).reverse = ys.reverse ++ ' ' :: xs.reverse := by
    simp [List.reverse_append]
  have hys : ∀ c ∈ ys.reverse, (c != ' ') = true := by
    intro c hc
    exact bne_iff_ne.mpr (fun hcc => hy (hcc ▸ (List.mem_reverse.mp hc)))
  rw [hrev, dropWhile_append_cons hys (by decide),
    takeWhile_append_cons hys (by decide)]
  simp

theorem tupleSplit_append {n z : List Char} (hn : ' ' ∉ n) (hz : ' ' ∉ z) (e : List Char) :
    tupleSplit (e ++ ' ' :: (n ++ ' ' :: z)) = some (e, n, z) := by
  have h1 : e ++ ' ' :: (n ++ ' ' :: z) = (e ++ ' ' :: n) ++ ' ' :: z := by simp
  unfold tupleSplit
  rw [h1]
  simp only [splitLastSpace_append hz, Option.some_bind, splitLastSpace_append hn]

/-! ### The version-2 pattern on a canonical well-formed line -/

theorem matchV2_mkLineV2
    {idd t d e n z q1 q2 q3 q4 : List Char} (q5 q6 q7 q8 tail : List Char)
    (hid : idd ≠ []) (hidd : ∀ c ∈ idd, c.isDigit)
    (ht : ',' ∉ t) (hd : ',' ∉ d)
    (he : ',' ∉ e) (hn : ',' ∉ n) (hns : ' ' ∉ n) (hz : ',' ∉ z) (hzs : ' ' ∉ z)
    (h1 : ',' ∉ q1) (h2 : ',' ∉ q2) (h3 : ',' ∉ q3) (h4 : ',' ∉ q4)
    (h5 : ',' ∉ q5) (h6 : ',' ∉ q6) (h7 : ',' ∉ q7) (h8 : ',' ∉ q8) :
    matchV2 (mkLineV2 idd t d e n z q1 q2 q3 q4 q5 q6 q7 q8 tail) =
      some ⟨idd, d, e, n, z, q4⟩ := by
  have hcomma : Char.isDigit ',' = false := by decide
  have htupfree : ',' ∉ (e ++ ' ' :: (n ++ ' ' :: z)) ++ [')'] := by
    intro hmem
    rcases List.mem_append.mp hmem with h | h
    · rcases List.mem_append.mp h with h | h
      · exact he h
      rcases List.mem_cons.mp h with h | h
      · exact absurd h.symm (by decide)
      rcases List.mem_append.mp h with h | h
      · exact hn h
      rcases List.mem_cons.mp h with h | h
      · exact absurd h.symm (by decide)
      · exact hz h
    · exact absurd h (by simp)
  have hform : ∀ R : List Char,
      e ++ ' ' :: (n ++ ' ' :: (z ++ ')' :: ',' :: R)) =
        ((e ++ ' ' :: (n ++ ' ' :: z)) ++ [')']) ++ ',' :: R := by
    intro R; simp
  unfold mkLineV2 matchV2
  simp only [takeWhile_append_cons hidd hcomma, dropWhile_append_cons hidd hcomma,
    if_neg hid, expectComma_cons, Option.some_bind, skipField_append ht,
    captureField_append hd, expectLit_append, hform, captureField_append htupfree,
    expectLastParen_concat, tupleSplit_append hns hzs,
    skipField_append h1, skipField_append h2, skipField_append h3,
    captureField_append h4, skipField_append h5, skipField_append h6,
    skipField_append h7, skipField_append h8]

/-! ### Header pattern versus column pattern -/

theorem matchesHeader_matchV2 {l : List Char} (h : matchesHeader l = true) :
    matchV2 l = none := by
  cases l with
  | nil => exact absurd h (by decide)
  | cons c cs =>
    have hdata : ("ID,Geometry,Remarks,".data) = 'I' :: "D,Geometry,Remarks,".data := rfl
    unfold matchesHeader at h
    rw [hdata] at h
    simp only [startsWith, Bool.and_eq_true, beq_iff_eq] at h
    obtain ⟨hc, -⟩ := h
    unfold matchV2
    rw [if_pos]
    rw [← hc]
    simp [List.takeWhile_cons, (by decide : Char.isDigit 'I' = false)]

theorem matchesHeader_of_matchV2 {l : List Char} {g : Groups} (h : matchV2 l = some g) :
    matchesHeader l = false := by
  by_contra hc
  rw [Bool.not_eq_false] at hc
  rw [matchesHeader_matchV2 hc] at h
  exact Option.noConfusion h

/-! ### Inversion of a successful match -/

theorem captureField_fst {cs : List Char} {c : List Char × List Char}
    (h : captureField cs = some c) : ',' ∉ c.1 := by
  unfold captureField at h
  split at h
  · intro hmem
    obtain ⟨rfl⟩ := Option.some.inj h
    have := List.mem_takeWhile_imp hmem
    simp at this
  · exact Option.noConfusion h

theorem matchV2_inv {l : List Char} {g : Groups} (h : matchV2 l = some g) :
    ',' ∉ g.g2 ∧ l.takeWhile Char.isDigit = g.g1 := by
  unfold matchV2 at h
  by_cases hd : l.takeWhile Char.isDigit = []
  · rw [if_pos hd] at h
    exact Option.noConfusion h
  rw [if_neg hd] at h
  simp only [Option.bind_eq_some] at h
  obtain ⟨r1, h1, r2, h2, c1, hc1, r4, h4, c2, hc2, s, hs, tup3, htup,
    r6, h6, r7, h7, r8, h8, c3, hc3, r10, h10, r11, h11, r12, h12, r13, h13, hg⟩ := h
  obtain ⟨rfl⟩ := Option.some.inj hg
  exact ⟨captureField_fst hc1, rfl⟩

theorem recordOfGroups_inv {off : Int} {g : Groups} {p : PointPNEZD}
    (h : recordOfGroups off g = some p) :
    p.description = g.g2 ∧ parseFloat g.g6 = some p.elevation_m ∧
      parseFloat g.g3 = some p.easting ∧ parseFloat g.g4 = some p.northing ∧
      p.point = (digitsToNat g.g1 : Int) + off := by
  unfold recordOfGroups at h
  simp only [Option.bind_eq_some] at h
  obtain ⟨e, he, n, hn, z, hz, hp⟩ := h
  obtain ⟨rfl⟩ := Option.some.inj hp
  exact ⟨rfl, hz, he, hn, rfl⟩

theorem recordOfGroups_renumber (k : Int) (g : Groups) :
    recordOfGroups k g = Option.map (renumber k) (recordOfGroups 0 g) := by
  unfold recordOfGroups
  cases hg3 : parseFloat g.g3 <;> cases hg4 : parseFloat g.g4 <;>
    cases hg6 : parseFloat g.g6 <;>
      simp only [Option.none_bind, Option.some_bind, Option.map_some', Option.map_none',
        renumber, Option.some.injEq, PointPNEZD.mk.injEq, add_zero, and_true, true_and]

/-! ### Step lemmas for the parsing loop -/

theorem parseLoop_nil {off : Int} {b : Bool} {acc : List PointPNEZD} :
    parseLoop off [] b acc = .ok (b, acc) := rfl

theorem parseLoop_cons_condtrue {off : Int} {l : List Char} {ls : List (List Char)}
    {b : Bool} {acc : List PointPNEZD} (hcond : (!b && matchesHeader l) = true) :
    parseLoop off (l :: ls) b acc = parseLoop off ls true acc := by
  conv_lhs => unfold parseLoop
  rw [if_pos hcond]

theorem parseLoop_cons_noheader {off : Int} {l : List Char} {ls : List (List Char)}
    {b : Bool} {acc : List PointPNEZD} (hcond : (!b && matchesHeader l) = false) :
    parseLoop off (l :: ls) b acc =
      match matchV2 l with
      | none => parseLoop off ls b acc
      | some g =>
        match recordOfGroups off g with
        | some p => parseLoop off ls b (acc ++ [p])
        | none => .error l := by
  conv_lhs => unfold parseLoop
  rw [if_neg (by simp [hcond])]

theorem parseLoop_cons_nomatch {off : Int} {l : List Char} {ls : List (List Char)}
    {b : Bool} {acc : List PointPNEZD} (hcond : (!b && matchesHeader l) = false)
    (hm : matchV2 l = none) :
    parseLoop off (l :: ls) b acc = parseLoop off ls b acc := by
  rw [parseLoop_cons_noheader hcond]
  simp only [hm]

theorem parseLoop_cons_match {off : Int} {l : List Char} {ls : List (List Char)}
    {b : Bool} {acc : List PointPNEZD} {g : Groups} {p : PointPNEZD}
    (hm : matchV2 l = some g) (hr : recordOfGroups off g = some p) :
    parseLoop off (l :: ls) b acc = parseLoop off ls b (acc ++ [p]) := by
  have hcond : (!b && matchesHeader l) = false := by
    rw [matchesHeader_of_matchV2 hm]
    simp
  rw [parseLoop_cons_noheader hcond]
  simp only [hm, hr]

theorem parseLoop_cons_err {off : Int} {l : List Char} {ls : List (List Char)}
    {b : Bool} {acc : List PointPNEZD} {g : Groups}
    (hm : matchV2 l = some g) (hr : recordOfGroups off g = none) :
    parseLoop off (l :: ls) b acc = .error l := by
  have hcond : (!b && matchesHeader l) = false := by
    rw [matchesHeader_of_matchV2 hm]
    simp
  rw [parseLoop_cons_noheader hcond]
  simp only [hm, hr]

/-! ### Invariants of the parsing loop -/

theorem parseLoop_mono {off : Int} {ls : List (List Char)} :
    ∀ {b : Bool} {acc : List PointPNEZD} {b2 : Bool} {pts : List PointPNEZD},
      parseLoop off ls b acc = .ok (b2, pts) → b = true → b2 = true := by
  induction ls with
  | nil =>
    intro b acc b2 pts h hb
    rw [parseLoop_nil] at h
    obtain ⟨h1, -⟩ := Prod.mk.injEq .. ▸ Except.ok.inj h
    exact h1 ▸ hb
  | cons l ls ih =>
    intro b acc b2 pts h hb
    subst hb
    have hcond : (!true && matchesHeader l) = false := by simp
    rw [parseLoop_cons_noheader hcond] at h
    cases hm : matchV2 l with
    | none =>
      rw [hm] at h
      exact ih h rfl
    | some g =>
      rw [hm] at h
      simp only [] at h
      cases hr : recordOfGroups off g with
      | some p =>
        rw [hr] at h
        simp only [] at h
        exact ih h rfl
      | none =>
        rw [hr] at h
        simp only [] at h
        exact Except.noConfusion h

theorem parseLoop_mem {off : Int} {ls : List (List Char)} :
    ∀ {b : Bool} {acc : List PointPNEZD} {b2 : Bool} {pts : List PointPNEZD},
      parseLoop off ls b acc = .ok (b2, pts) → ∀ p ∈ pts,
        p ∈ acc ∨ ∃ l ∈ ls, ∃ g, matchV2 l = some g ∧ recordOfGroups off g = some p := by
  induction ls with
  | nil =>
    intro b acc b2 pts h p hp
    rw [parseLoop_nil] at h
    obtain ⟨-, h2⟩ := Prod.mk.injEq .. ▸ Except.ok.inj h
    exact Or.inl (h2 ▸ hp)
  | cons l ls ih =>
    intro b acc b2 pts h p hp
    cases hcond : (!b && matchesHeader l) with
    | true =>
      rw [parseLoop_cons_condtrue hcond] at h
      rcases ih h p hp with hacc | ⟨l', hl', g', hg', hr'⟩
      · exact Or.inl hacc
      · exact Or.inr ⟨l', List.mem_cons_of_mem l hl', g', hg', hr'⟩
    | false =>
      cases hm : matchV2 l with
      | none =>
        rw [parseLoop_cons_nomatch hcond hm] at h
        rcases ih h p hp with hacc | ⟨l', hl', g', hg', hr'⟩
        · exact Or.inl hacc
        · exact Or.inr ⟨l', List.mem_cons_of_mem l hl', g', hg', hr'⟩
      | some g =>
        cases hr : recordOfGroups off g with
        | none =>
          rw [parseLoop_cons_err hm hr] at h
          exact Except.noConfusion h
        | some p0 =>
          rw [parseLoop_cons_match hm hr] at h
          rcases ih h p hp with hacc | ⟨l', hl', g', hg', hr'⟩
          · rcases List.mem_append.mp hacc with h' | h'
            · exact Or.inl h'
            · have hp0 : p = p0 := by simpa using h'
              exact Or.inr ⟨l, List.mem_cons_self l ls, g, hm, hp0 ▸ hr⟩
          · exact Or.inr ⟨l', List.mem_cons_of_mem l hl', g', hg', hr'⟩

theorem parseLoop_count {off : Int} {ls : List (List Char)} :
    ∀ {b : Bool} {acc : List PointPNEZD} {b2 : Bool} {pts : List PointPNEZD},
      parseLoop off ls b acc = .ok (b2, pts) →
        pts.length = acc.length + (ls.filter (fun l => (matchV2 l).isSome)).length := by
  induction ls with
  | nil =>
    intro b acc b2 pts h
    rw [parseLoop_nil] at h
    obtain ⟨-, h2⟩ := Prod.mk.injEq .. ▸ Except.ok.inj h
    simp [← h2]
  | cons l ls ih =>
    intro b acc b2 pts h
    cases hcond : (!b && matchesHeader l) with
    | true =>
      have hh : matchesHeader l = true := (Bool.and_eq_true .. ▸ hcond).2
      have hm : matchV2 l = none := matchesHeader_matchV2 hh
      rw [parseLoop_cons_condtrue hcond] at h
      rw [List.filter_cons_of_neg (by simp [hm])]
      exact ih h
    | false =>
      cases hm : matchV2 l with
      | none =>
        rw [parseLoop_cons_nomatch hcond hm] at h
        rw [List.filter_cons_of_neg (by simp [hm])]
        exact ih h
      | some g =>
        cases hr : recordOfGroups off g with
        | none =>
          rw [parseLoop_cons_err hm hr] at h
          exact Except.noConfusion h
        | some p0 =>
          rw [parseLoop_cons_match hm hr] at h
          rw [List.filter_cons_of_pos (by simp [hm])]
          have := ih h
          simp only [List.length_append, List.length_cons, List.length_nil,
            List.length_singleton] at this ⊢
          omega

theorem parseLoop_inert {off : Int} {l : List Char}
    (hh : matchesHeader l = false) (hm : matchV2 l = none) :
    ∀ (xs : List (List Char)) (ys : List (List Char)) (b : Bool) (acc : List PointPNEZD),
      parseLoop off (xs ++ l :: ys) b acc = parseLoop off (xs ++ ys) b acc := by
  intro xs
  induction xs with
  | nil =>
    intro ys b acc
    have hcond : (!b && matchesHeader l) = false := by simp [hh]
    exact parseLoop_cons_nomatch hcond hm
  | cons x xs ih =>
    intro ys b acc
    cases hcond : (!b && matchesHeader x) with
    | true =>
      rw [List.cons_append, List.cons_append, parseLoop_cons_condtrue hcond,
        parseLoop_cons_condtrue hcond, ih]
    | false =>
      cases hmx : matchV2 x with
      | none =>
        rw [List.cons_append, List.cons_append, parseLoop_cons_nomatch hcond hmx,
          parseLoop_cons_nomatch hcond hmx, ih]
      | some g =>
        cases hr : recordOfGroups off g with
        | some p =>
          rw [List.cons_append, List.cons_append, parseLoop_cons_match hmx hr,
            parseLoop_cons_match hmx hr, ih]
        | none =>
          rw [List.cons_append, List.cons_append, parseLoop_cons_err hmx hr,
            parseLoop_cons_err hmx hr]

theorem parseLoop_renumber (k : Int) {ls : List (List Char)} :
    ∀ (b : Bool) (acc : List PointPNEZD),
      parseLoop k ls b (acc.map (renumber k)) =
        match parseLoop 0 ls b acc with
        | .ok (b2, pts) => .ok (b2, pts.map (renumber k))
        | .error e => .error e := by
  induction ls with
  | nil =>
    intro b acc
    rw [parseLoop_nil, parseLoop_nil]
  | cons l ls ih =>
    intro b acc
    cases hcond : (!b && matchesHeader l) with
    | true =>
      rw [parseLoop_cons_condtrue hcond, parseLoop_cons_condtrue hcond]
      exact ih true acc
    | false =>
      cases hm : matchV2 l with
      | none =>
        rw [parseLoop_cons_nomatch hcond hm, parseLoop_cons_nomatch hcond hm]
        exact ih b acc
      | some g =>
        have hren := recordOfGroups_renumber k g
        cases hr : recordOfGroups 0 g with
        | some p =>
          have hrk : recordOfGroups k g = some (renumber k p) := by
            rw [hren, hr]
            rfl
          rw [parseLoop_cons_match hm hrk, parseLoop_cons_match hm hr]
          have hmap : acc.map (renumber k) ++ [renumber k p] = (acc ++ [p]).map (renumber k) := by
            simp
          rw [hmap]
          exact ih b (acc ++ [p])
        | none =>
          have hrk : recordOfGroups k g = none := by
            rw [hren, hr]
            rfl
          rw [parseLoop_cons_err hm hrk, parseLoop_cons_err hm hr]

/-! ### The run level of the SW Maps parser -/

theorem parse_points_csv_ok {off : Int} {lines : List (List Char)} {pts : List PointPNEZD} :
    parse_points_csv off lines = .ok pts ↔
      ∃ b2, parseLoop off lines false [] = .ok (b2, pts) := by
  unfold parse_points_csv
  cases h : parseLoop off lines false [] with
  | ok pr =>
    obtain ⟨b2, pts0⟩ := pr
    simp
  | error e => simp

/-! ### Joining and splitting PNEZD output fields -/

theorem splitComma_comma_free {f : List Char} (hf : ',' ∉ f) : splitComma f = [f] := by
  induction f with
  | nil => rfl
  | cons c cs ih =>
    have hc : c ≠ ',' := fun h => hf (h ▸ List.mem_cons_self ..)
    have hcs : ',' ∉ cs := fun h => hf (List.mem_cons_of_mem _ h)
    unfold splitComma
    rw [if_neg hc, ih hcs]

theorem splitComma_append {f : List Char} (hf : ',' ∉ f) (r : List Char) :
    splitComma (f ++ ',' :: r) = f :: splitComma r := by
  induction f with
  | nil =>
    show splitComma (',' :: r) = [] :: splitComma r
    conv_lhs => unfold splitComma
    rw [if_pos rfl]
  | cons c cs ih =>
    have hc : c ≠ ',' := fun h => hf (h ▸ List.mem_cons_self ..)
    have hcs : ',' ∉ cs := fun h => hf (List.mem_cons_of_mem _ h)
    show splitComma (c :: (cs ++ ',' :: r)) = (c :: cs) :: splitComma r
    conv_lhs => unfold splitComma
    rw [if_neg hc, ih hcs]

theorem splitComma_joinComma {fs : List (List Char)} (hne : fs ≠ [])
    (hfree : ∀ f ∈ fs, ',' ∉ f) : splitComma (joinComma fs) = fs := by
  induction fs with
  | nil => exact absurd rfl hne
  | cons f fs ih =>
    cases fs with
    | nil =>
      show splitComma f = [f]
      exact splitComma_comma_free (hfree f (by simp))
    | cons f2 fs2 =>
      have hjoin : joinComma (f :: f2 :: fs2) = f ++ ',' :: joinComma (f2 :: fs2) := rfl
      rw [hjoin, splitComma_append (hfree f (by simp)),
        ih (by simp) (fun x hx => hfree x (by simp [hx]))]

/-! ### The unit rescaler -/

theorem processRow_ok_inv {row : List (List Char)} {orow : List OutField}
    (h : processRow row = .ok orow) :
    ∃ a b c d e rest q, row = a :: b :: c :: d :: e :: rest ∧ parseFloat d = some q ∧
      orow = [OutField.text a, OutField.text b, OutField.text c,
        OutField.num (q / FT_PER_METER), OutField.text e] := by
  match row with
  | [] => exact absurd h (by simp [processRow, getIdx])
  | [a] => exact absurd h (by simp [processRow, getIdx])
  | [a, b] => exact absurd h (by simp [processRow, getIdx])
  | [a, b, c] => exact absurd h (by simp [processRow, getIdx])
  | [a, b, c, d] =>
    cases hq : parseFloat d with
    | none => exact absurd h (by simp [processRow, getIdx, hq])
    | some q => exact absurd h (by simp [processRow, getIdx, hq])
  | a :: b :: c :: d :: e :: rest =>
    cases hq : parseFloat d with
    | none => exact absurd h (by simp [processRow, getIdx, hq])
    | some q =>
      refine ⟨a, b, c, d, e, rest, q, rfl, hq, ?_⟩
      have h' := h
      simp only [processRow, getIdx, hq, List.get?] at h'
      exact (Except.ok.inj h').symm

theorem processRow_shape_ok {a b c d e : List Char} (rest : List (List Char)) {q : ℚ}
    (hq : parseFloat d = some q) :
    processRow (a :: b :: c :: d :: e :: rest) =
      .ok [OutField.text a, OutField.text b, OutField.text c,
        OutField.num (q / FT_PER_METER), OutField.text e] := by
  simp only [processRow, getIdx, hq, List.get?]

theorem processRow_badnum {a b c d : List Char} (rest : List (List Char))
    (hd : parseFloat d = none) :
    processRow (a :: b :: c :: d :: rest) = .error "ValueError" := by
  simp only [processRow, getIdx, hd, List.get?]

theorem unitTranslate_cons_ok {row : List (List Char)} {o : List OutField}
    (rows : List (List (List Char))) (h : processRow row = .ok o) :
    unitTranslate (row :: rows) =
      match unitTranslate rows with
      | .error e => .error e
      | .ok os => .ok (o :: os) := by
  conv_lhs => unfold unitTranslate
  rw [h]

theorem unitTranslate_cons_err {row : List (List Char)} {e : String}
    (rows : List (List (List Char))) (h : processRow row = .error e) :
    unitTranslate (row :: rows) = .error e := by
  conv_lhs => unfold unitTranslate
  rw [h]

theorem unitTranslate_error {rows : List (List (List Char))}
    (h : ∃ r ∈ rows, ∃ e, processRow r = .error e) :
    ∃ e', unitTranslate rows = .error e' := by
  induction rows with
  | nil =>
    obtain ⟨r, hr, -⟩ := h
    exact absurd hr (by simp)
  | cons row rows ih =>
    obtain ⟨r, hr, e, he⟩ := h
    rcases List.mem_cons.mp hr with rfl | hr'
    · exact ⟨e, unitTranslate_cons_err rows he⟩
    · cases hp : processRow row with
      | error e0 => exact ⟨e0, unitTranslate_cons_err rows hp⟩
      | ok o =>
        obtain ⟨e', he'⟩ := ih ⟨r, hr', e, he⟩
        refine ⟨e', ?_⟩
        rw [unitTranslate_cons_ok rows hp, he']

/-! ### Evaluating the float conversion on literal strings -/

theorem not_ws_of_digit {c : Char} (h : c.isDigit = true) : c.isWhitespace = false := by
  by_contra hw
  rw [Bool.not_eq_false] at hw
  have hcases : ((c = ' ' ∨ c = '\t') ∨ c = '\r') ∨ c = '\n' := by
    simpa [Char.isWhitespace, decide_eq_true_eq] using hw
  rcases hcases with ((rfl | rfl) | rfl) | rfl <;> exact absurd h (by decide)

theorem digit_ne {c x : Char} (hc : c.isDigit = true) (hx : x.isDigit = false) : c ≠ x := by
  intro h
  rw [h, hx] at hc
  exact Bool.noConfusion hc

theorem takeWhile_all {p : Char → Bool} {xs : List Char} (h : ∀ c ∈ xs, p c = true) :
    xs.takeWhile p = xs := by
  induction xs with
  | nil => rfl
  | cons a as ih =>
    have ha : p a = true := h a (by simp)
    simp only [List.takeWhile_cons, ha, if_true]
    rw [ih (fun c hc => h c (by simp [hc]))]

theorem dropWhile_all {p : Char → Bool} {xs : List Char} (h : ∀ c ∈ xs, p c = true) :
    xs.dropWhile p = [] := by
  induction xs with
  | nil => rfl
  | cons a as ih =>
    have ha : p a = true := h a (by simp)
    simp only [List.dropWhile_cons, ha, if_true]
    exact ih (fun c hc => h c (by simp [hc]))

theorem digitsToNat_nil : digitsToNat [] = 0 := rfl

theorem parseFloat_decimal {ip fp : List Char}
    (hip : ∀ c ∈ ip, c.isDigit = true) (hfp : ∀ c ∈ fp, c.isDigit = true) (hne : ip ≠ []) :
    parseFloat (ip ++ '.' :: fp) =
      some ((digitsToNat ip : ℚ) + (digitsToNat fp : ℚ) / (10 : ℚ) ^ fp.length) := by
  obtain ⟨c, ip', rfl⟩ : ∃ c ip', ip = c :: ip' := by
    cases ip with
    | nil => exact absurd rfl hne
    | cons c ip' => exact ⟨c, ip', rfl⟩
  have hc : c.isDigit = true := hip c (by simp)
  have hw : c.isWhitespace = false := not_ws_of_digit hc
  have hplus : c ≠ '+' := digit_ne hc (by decide)
  have hminus : c ≠ '-' := digit_ne hc (by decide)
  have hsplit : (c :: ip') ++ '.' :: fp = c :: (ip' ++ '.' :: fp) := List.cons_append ..
  have hdrop : (c :: (ip' ++ '.' :: fp)).dropWhile Char.isWhitespace =
      c :: (ip' ++ '.' :: fp) := List.dropWhile_cons_of_neg (by simp [hw])
  have htake : (c :: (ip' ++ '.' :: fp)).takeWhile Char.isDigit = c :: ip' := by
    rw [← hsplit]
    exact takeWhile_append_cons hip (by decide) fp
  have hdropd : (c :: (ip' ++ '.' :: fp)).dropWhile Char.isDigit = '.' :: fp := by
    rw [← hsplit]
    exact dropWhile_append_cons hip (by decide) fp
  rw [hsplit]
  simp [parseFloat, hdrop, htake, hdropd, takeWhile_all hfp, dropWhile_all hfp,
    eq_false hplus, eq_false hminus]

theorem parseFloat_neg_decimal {ip fp : List Char}
    (hip : ∀ c ∈ ip, c.isDigit = true) (hfp : ∀ c ∈ fp, c.isDigit = true) (hne : ip ≠ []) :
    parseFloat ('-' :: (ip ++ '.' :: fp)) =
      some (-((digitsToNat ip : ℚ) + (digitsToNat fp : ℚ) / (10 : ℚ) ^ fp.length)) := by
  obtain ⟨c, ip', rfl⟩ : ∃ c ip', ip = c :: ip' := by
    cases ip with
    | nil => exact absurd rfl hne
    | cons c ip' => exact ⟨c, ip', rfl⟩
  have hsplit : (c :: ip') ++ '.' :: fp = c :: (ip' ++ '.' :: fp) := List.cons_append ..
  have hdrop : ('-' :: (c :: (ip' ++ '.' :: fp))).dropWhile Char.isWhitespace =
      '-' :: (c :: (ip' ++ '.' :: fp)) := List.dropWhile_cons_of_neg (by simp)
  have htake : (c :: (ip' ++ '.' :: fp)).takeWhile Char.isDigit = c :: ip' := by
    rw [← hsplit]
    exact takeWhile_append_cons hip (by decide) fp
  have hdropd : (c :: (ip' ++ '.' :: fp)).dropWhile Char.isDigit = '.' :: fp := by
    rw [← hsplit]
    exact dropWhile_append_cons hip (by decide) fp
  rw [show '-' :: ((c :: ip') ++ '.' :: fp) = '-' :: (c :: (ip' ++ '.' :: fp)) by rw [hsplit]]
  simp [parseFloat, hdrop, htake, hdropd, takeWhile_all hfp, dropWhile_all hfp]

theorem parseFloat_nat {ds : List Char}
    (hds : ∀ c ∈ ds, c.isDigit = true) (hne : ds ≠ []) :
    parseFloat ds = some (digitsToNat ds : ℚ) := by
  obtain ⟨c, ds', rfl⟩ : ∃ c ds', ds = c :: ds' := by
    cases ds with
    | nil => exact absurd rfl hne
    | cons c ds' => exact ⟨c, ds', rfl⟩
  have hc : c.isDigit = true := hds c (by simp)
  have hw : c.isWhitespace = false := not_ws_of_digit hc
  have hplus : c ≠ '+' := digit_ne hc (by decide)
  have hminus : c ≠ '-' := digit_ne hc (by decide)
  have hdrop : (c :: ds').dropWhile Char.isWhitespace = c :: ds' :=
    List.dropWhile_cons_of_neg (by simp [hw])
  have hdot : ∀ x ∈ ([] : List Char), x = '.' → False := by simp
  simp [parseFloat, hdrop, takeWhile_all hds, dropWhile_all hds,
    eq_false hplus, eq_false hminus, digitsToNat_nil]

theorem parseFloat_easting :
    parseFloat ['-', '1', '1', '2', '.', '8', '3', '4', '6', '1', '1', '4', '9'] =
      some (-112.83461149 : ℚ) := by
  have h : ['-', '1', '1', '2', '.', '8', '3', '4', '6', '1', '1', '4', '9'] =
      '-' :: ("112".data ++ '.' :: "83461149".data) := rfl
  rw [h, parseFloat_neg_decimal (by decide) (by decide) (by decide)]
  have e1 : digitsToNat "112".data = 112 := by decide
  have e2 : digitsToNat "83461149".data = 83461149 := by decide
  have e3 : ("83461149".data).length = 8 := by decide
  rw [e1, e2, e3]
  simp only [Option.some.injEq]
  norm_num

theorem parseFloat_northing :
    parseFloat ['3', '9', '.', '5', '7', '3', '2', '8', '9', '3', '5'] =
      some (39.57328935 : ℚ) := by
  have h : ['3', '9', '.', '5', '7', '3', '2', '8', '9', '3', '5'] =
      "39".data ++ '.' :: "57328935".data := rfl
  rw [h, parseFloat_decimal (by decide) (by decide) (by decide)]
  have e1 : digitsToNat "39".data = 39 := by decide
  have e2 : digitsToNat "57328935".data = 57328935 := by decide
  have e3 : ("57328935".data).length = 8 := by decide
  rw [e1, e2, e3]
  simp only [Option.some.injEq]
  norm_num

theorem parseFloat_ortho :
    parseFloat ['1', '5', '3', '4', '.', '6', '7', '2'] = some (1534.672 : ℚ) := by
  have h : ['1', '5', '3', '4', '.', '6', '7', '2'] = "1534".data ++ '.' :: "672".data := rfl
  rw [h, parseFloat_decimal (by decide) (by decide) (by decide)]
  have e1 : digitsToNat "1534".data = 1534 := by decide
  have e2 : digitsToNat "672".data = 672 := by decide
  have e3 : ("672".data).length = 3 := by decide
  rw [e1, e2, e3]
  simp only [Option.some.injEq]
  norm_num

theorem parseFloat_ellips :
    parseFloat ['1', '5', '1', '0', '.', '7', '4', '1'] = some (1510.741 : ℚ) := by
  have h : ['1', '5', '1', '0', '.', '7', '4', '1'] = "1510".data ++ '.' :: "741".data := rfl
  rw [h, parseFloat_decimal (by decide) (by decide) (by decide)]
  have e1 : digitsToNat "1510".data = 1510 := by decide
  have e2 : digitsToNat "741".data = 741 := by decide
  have e3 : ("741".data).length = 3 := by decide
  rw [e1, e2, e3]
  simp only [Option.some.injEq]
  norm_num

theorem parseFloat_two : parseFloat ['2'] = some (2 : ℚ) := by
  rw [parseFloat_nat (by decide) (by decide)]
  have e1 : digitsToNat "2".data = 2 := by decide
  rw [e1]
  simp only [Option.some.injEq]
  norm_num

/-! ### Evaluating the parser on the example line -/

theorem matchV2_example : matchV2 exampleLine = some exampleGroups := by decide

theorem recordOfGroups_example : recordOfGroups 0 exampleGroups = some examplePoint := by
  unfold recordOfGroups exampleGroups
  simp only [parseFloat_easting, parseFloat_northing, parseFloat_ortho, Option.some_bind]
  unfold examplePoint
  simp only [Option.some.injEq, PointPNEZD.mk.injEq, and_true, true_and]
  decide

theorem parse_points_csv_example : parse_points_csv 0 [exampleLine] = .ok [examplePoint] := by
  unfold parse_points_csv
  rw [parseLoop_cons_match matchV2_example recordOfGroups_example, parseLoop_nil]
  rfl

/-! ### The claims -/

/-- C1, counterexample to the claim as stated: on the spec's own example line
the parser produces the record with `elevation_m = 1534.672` (capture group 6,
the fourth comma-separated field after the geometry tuple), while the third
numeric component of the `POINT Z (...)` tuple (capture group 5) is
`1510.741`; the two differ, so `elevation_meters` does not equal the tuple's
third numeric component, and the example does not parse to 1510.741. -/
theorem claim_C1_counterexample :
    matchV2 exampleLine = some exampleGroups ∧
    parseFloat exampleGroups.g5 = some (1510.741 : ℚ) ∧
    parse_points_csv 0 [exampleLine] = .ok [examplePoint] ∧
    examplePoint.elevation_m = (1534.672 : ℚ) ∧
    ((1534.672 : ℚ) = (1510.741 : ℚ) → False) := by
  refine ⟨matchV2_example, parseFloat_ellips, parse_points_csv_example, rfl, ?_⟩
  intro h
  norm_num at h

/-- C1 (amended): every line matching the version-2 column pattern contributes
exactly one record, and its `elevation_m` is the parsed value of capture group
6, the fourth comma-separated field after the `POINT Z (...)` tuple (the
orthometric-height column), not the tuple's third component (the ellipsoidal
height).  Stated on a canonical well-formed line built from its components:
the line is consumed as exactly one appended record `p`, and `p.elevation_m`
is the float value of the fourth post-tuple field `q4`. -/
theorem claim_C1
    {idd t d e n z q1 q2 q3 q4 : List Char} (q5 q6 q7 q8 tail : List Char)
    (hid : idd ≠ []) (hidd : ∀ c ∈ idd, c.isDigit)
    (ht : ',' ∉ t) (hd : ',' ∉ d)
    (he : ',' ∉ e) (hn : ',' ∉ n) (hns : ' ' ∉ n) (hz : ',' ∉ z) (hzs : ' ' ∉ z)
    (h1 : ',' ∉ q1) (h2 : ',' ∉ q2) (h3 : ',' ∉ q3) (h4 : ',' ∉ q4)
    (h5 : ',' ∉ q5) (h6 : ',' ∉ q6) (h7 : ',' ∉ q7) (h8 : ',' ∉ q8)
    {off : Int} {b : Bool} {acc : List PointPNEZD} {ls : List (List Char)}
    {p : PointPNEZD}
    (hp : recordOfGroups off ⟨idd, d, e, n, z, q4⟩ = some p) :
    parseLoop off (mkLineV2 idd t d e n z q1 q2 q3 q4 q5 q6 q7 q8 tail :: ls) b acc =
      parseLoop off ls b (acc ++ [p]) ∧
    parseFloat q4 = some p.elevation_m := by
  have hm := matchV2_mkLineV2 q5 q6 q7 q8 tail hid hidd ht hd he hn hns hz hzs
    h1 h2 h3 h4 h5 h6 h7 h8
  exact ⟨parseLoop_cons_match hm hp, (recordOfGroups_inv hp).2.1⟩

/-- C1, witness: the amended claim applied to the components of the spec's
example line, giving the single record with elevation 1534.672 taken from the
fourth post-tuple field. -/
theorem claim_C1_witness :
    parseLoop 0 [exampleLine] false [] = Except.ok (false, [examplePoint]) ∧
    parseFloat "1534.672".data = some examplePoint.elevation_m := by
  have h := @claim_C1 "54".data "08/25/2023 12:43:39.500 PDT".data "pto".data
    "-112.83461149".data "39.57328935".data "1510.741".data
    "39.573289348".data "-119.834611492".data "1510.741".data "1534.672".data
    "2.050".data "4".data "0.001".data "0.0".data "0.010,0.010".data
    (by decide) (by decide) (by decide) (by decide) (by decide) (by decide)
    (by decide) (by decide) (by decide) (by decide) (by decide) (by decide)
    (by decide) (by decide) (by decide) (by decide) (by decide)
    0 false [] [] examplePoint recordOfGroups_example
  exact ⟨h.1.trans parseLoop_nil, h.2⟩

/-- C2, counterexample to the claim as stated: `badLine` structurally matches
the version-2 column pattern (the match is `isSome`) but its captured
coordinate fields are not numeric, and parsing the stream consisting of that
line aborts with an uncaught conversion error instead of skipping the line. -/
theorem claim_C2_counterexample :
    (matchV2 badLine).isSome = true ∧
    parse_points_csv 0 [badLine] = .error badLine := by
  decide

/-- C2 (amended): a line that structurally matches the version-2 column
pattern but whose captured numeric fields fail `float` conversion aborts the
whole run with the uncaught conversion error — the line is not treated as
non-matching and the run does not continue past it. -/
theorem claim_C2 {l : List Char} {g : Groups} {off : Int}
    (hm : matchV2 l = some g) (hr : recordOfGroups off g = none) :
    (∀ (b : Bool) (acc : List PointPNEZD) (ls : List (List Char)),
      parseLoop off (l :: ls) b acc = .error l) ∧
    (∀ ls : List (List Char), parse_points_csv off (l :: ls) = .error l) := by
  refine ⟨fun b acc ls => parseLoop_cons_err hm hr, fun ls => ?_⟩
  unfold parse_points_csv
  rw [parseLoop_cons_err hm hr]

/-- C2, witness: the amended claim applied to `badLine`. -/
theorem claim_C2_witness :
    parseLoop 0 [badLine] false [] = .error badLine ∧
    parse_points_csv 0 [badLine] = .error badLine := by
  have h := @claim_C2 badLine ⟨"1".data, "d".data, "a".data, "b".data, "c".data, "s".data⟩
    0 (by decide) (by decide)
  exact ⟨h.1 false [] [], h.2 []⟩

/-- C3, counterexample to the claim as stated: a row with six fields and a
numeric field at index 3 is rewritten to a row of exactly five fields; the
sixth input field `"f"` is dropped, not re-emitted. -/
theorem claim_C3_counterexample :
    unitTranslate [["a".data, "b".data, "c".data, "2".data, "e".data, "f".data]] =
      .ok [[OutField.text "a".data, OutField.text "b".data, OutField.text "c".data,
        OutField.num ((2 : ℚ) / FT_PER_METER), OutField.text "e".data]] ∧
    (["a".data, "b".data, "c".data, "2".data, "e".data, "f".data] : List (List Char)).length = 6 ∧
    OutField.text "f".data ∉ [OutField.text "a".data, OutField.text "b".data,
      OutField.text "c".data, OutField.num ((2 : ℚ) / FT_PER_METER), OutField.text "e".data] := by
  refine ⟨?_, rfl, by decide⟩
  have hp : processRow ["a".data, "b".data, "c".data, "2".data, "e".data, "f".data] =
      .ok [OutField.text "a".data, OutField.text "b".data, OutField.text "c".data,
        OutField.num ((2 : ℚ) / FT_PER_METER), OutField.text "e".data] :=
    @processRow_shape_ok "a".data "b".data "c".data "2".data "e".data ["f".data] 2 parseFloat_two
  rw [unitTranslate_cons_ok [] hp]
  rfl

/-- C3 (amended): when the whole run succeeds, every input row corresponds in
order to an output row consisting of exactly the first five input fields, with
field index 3 replaced by its numeric value divided by `FT_PER_METER` and
fields 0, 1, 2, 4 passed through unchanged; fields beyond index 4 are
dropped. -/
theorem claim_C3 {rows : List (List (List Char))} {out : List (List OutField)}
    (h : unitTranslate rows = .ok out) :
    List.Forall₂ (fun row orow => ∃ a b c d e rest q,
      row = a :: b :: c :: d :: e :: rest ∧ parseFloat d = some q ∧
      orow = [OutField.text a, OutField.text b, OutField.text c,
        OutField.num (q / FT_PER_METER), OutField.text e]) rows out := by
  induction rows generalizing out with
  | nil =>
    have hout : out = [] := Except.ok.inj h.symm
    rw [hout]
    exact List.Forall₂.nil
  | cons row rows ih =>
    cases hp : processRow row with
    | error e =>
      rw [unitTranslate_cons_err rows hp] at h
      exact Except.noConfusion h
    | ok o =>
      rw [unitTranslate_cons_ok rows hp] at h
      cases hu : unitTranslate rows with
      | error e =>
        rw [hu] at h
        exact Except.noConfusion h
      | ok os =>
        rw [hu] at h
        have hout : out = o :: os := (Except.ok.inj h).symm
        rw [hout]
        exact List.Forall₂.cons (processRow_ok_inv hp) (ih hu)

/-- C3, witness: the amended claim applied to the spec's rescaler example row
`8,2871835.803,6235770.127,1510.741,FND`. -/
theorem claim_C3_witness :
    List.Forall₂ (fun row orow => ∃ a b c d e rest q,
      row = a :: b :: c :: d :: e :: rest ∧ parseFloat d = some q ∧
      orow = [OutField.text a, OutField.text b, OutField.text c,
        OutField.num (q / FT_PER_METER), OutField.text e])
      [["8".data, "2871835.803".data, "6235770.127".data, "1510.741".data, "FND".data]]
      [[OutField.text "8".data, OutField.text "2871835.803".data,
        OutField.text "6235770.127".data,
        OutField.num ((1510.741 : ℚ) / FT_PER_METER), OutField.text "FND".data]] := by
  refine claim_C3 ?_
  have hp : processRow
      ["8".data, "2871835.803".data, "6235770.127".data, "1510.741".data, "FND".data] =
      .ok [OutField.text "8".data, OutField.text "2871835.803".data,
        OutField.text "6235770.127".data,
        OutField.num ((1510.741 : ℚ) / FT_PER_METER), OutField.text "FND".data] :=
    @processRow_shape_ok "8".data "2871835.803".data "6235770.127".data "1510.741".data
      "FND".data [] (1510.741 : ℚ) parseFloat_ellips
  rw [unitTranslate_cons_ok [] hp]
  rfl

/-- C4: parsing commutes with the id offset: parsing with offset `k` yields
exactly the result of parsing with offset 0 with `k` added to every record's
id (and the same uncaught error when the offset-0 run aborts). -/
theorem claim_C4 (k : Int) (lines : List (List Char)) :
    parse_points_csv k lines =
      match parse_points_csv 0 lines with
      | .ok pts => .ok (pts.map (renumber k))
      | .error e => .error e := by
  unfold parse_points_csv
  have h := @parseLoop_renumber k lines false ([] : List PointPNEZD)
  rw [List.map_nil] at h
  rw [h]
  cases hc : parseLoop 0 lines false [] with
  | ok pr =>
    obtain ⟨b2, pts⟩ := pr
    rfl
  | error e => rfl

/-- C5: a line that matches neither the header pattern nor the column pattern
contributes no record and never affects the run (deleting it from anywhere in
the stream leaves the result unchanged), and on a successful run the number
of records returned equals the number of input lines matching the column
pattern (header lines never match the column pattern). -/
theorem claim_C5 :
    (∀ (off : Int) (l : List Char), matchesHeader l = false → matchV2 l = none →
      ∀ (xs ys : List (List Char)) (b : Bool) (acc : List PointPNEZD),
        parseLoop off (xs ++ l :: ys) b acc = parseLoop off (xs ++ ys) b acc) ∧
    (∀ (off : Int) (lines : List (List Char)) (pts : List PointPNEZD),
      parse_points_csv off lines = .ok pts →
        pts.length = (lines.filter (fun l => (matchV2 l).isSome)).length) := by
  constructor
  · intro off l hh hm xs ys b acc
    exact parseLoop_inert hh hm xs ys b acc
  · intro off lines pts h
    obtain ⟨b2, hb⟩ := parse_points_csv_ok.mp h
    simpa using parseLoop_count hb

/-- C5, witness: deleting the unrecognized line `junk` after the example line
does not change the run, and the two-line stream yields exactly one record,
matching its one column-matching line. -/
theorem claim_C5_witness :
    parseLoop 0 [exampleLine, "junk".data] false [] = parseLoop 0 [exampleLine] false [] ∧
    ([examplePoint] : List PointPNEZD).length =
      (([exampleLine, "junk".data]).filter (fun l => (matchV2 l).isSome)).length := by
  have h2 : parse_points_csv 0 [exampleLine, "junk".data] = .ok [examplePoint] := by
    unfold parse_points_csv
    rw [parseLoop_cons_match matchV2_example recordOfGroups_example,
      parseLoop_cons_nomatch (by decide) (by decide), parseLoop_nil]
    rfl
  exact ⟨claim_C5.1 0 "junk".data (by decide) (by decide) [exampleLine] [] false [],
    claim_C5.2 0 [exampleLine, "junk".data] [examplePoint] h2⟩

/-- C6: if a row whose field at index 3 is not parseable as a number is
reached (all rows before it process successfully), the unit rescaler aborts
the entire run with the uncaught conversion error at that row — regardless of
what follows — and nothing at all is written to the output. -/
theorem claim_C6 {d : List Char} (pre post : List (List (List Char)))
    (a b c : List Char) (rest : List (List Char))
    (hbad : parseFloat d = none)
    (hpre : ∀ r ∈ pre, ∃ o, processRow r = .ok o) :
    unitTranslate (pre ++ (a :: b :: c :: d :: rest) :: post) = .error "ValueError" ∧
    unitTranslateOutput (pre ++ (a :: b :: c :: d :: rest) :: post) = [] := by
  have herr : processRow (a :: b :: c :: d :: rest) = .error "ValueError" :=
    processRow_badnum rest hbad
  have hmain : ∀ pr : List (List (List Char)), (∀ r ∈ pr, ∃ o, processRow r = .ok o) →
      unitTranslate (pr ++ (a :: b :: c :: d :: rest) :: post) = .error "ValueError" := by
    intro pr
    induction pr with
    | nil =>
      intro _
      exact unitTranslate_cons_err post herr
    | cons r pr ih =>
      intro hpr
      obtain ⟨o, ho⟩ := hpr r (by simp)
      rw [List.cons_append, unitTranslate_cons_ok _ ho,
        ih (fun r' hr' => hpr r' (by simp [hr']))]
  refine ⟨hmain pre hpre, ?_⟩
  unfold unitTranslateOutput
  rw [hmain pre hpre]

/-- C6, witness: a stream whose first row has the non-numeric field `x` at
index 3 aborts with the conversion error even though a well-formed row
follows, and emits nothing. -/
theorem claim_C6_witness :
    unitTranslate [["a".data, "b".data, "c".data, "x".data, "e".data],
      ["1".data, "2".data, "3".data, "4".data, "5".data]] = .error "ValueError" ∧
    unitTranslateOutput [["a".data, "b".data, "c".data, "x".data, "e".data],
      ["1".data, "2".data, "3".data, "4".data, "5".data]] = [] :=
  @claim_C6 "x".data [] [["1".data, "2".data, "3".data, "4".data, "5".data]]
    "a".data "b".data "c".data ["e".data] (by decide) (by simp)

/-- C7: under version 2 a line matching the column pattern yields its record
even when no header has been seen (the flag is still false); the header-seen
flag is monotone (once true it stays true to the end of the stream); and a
header line consumed while the flag is false sets the flag and contributes no
record. -/
theorem claim_C7 :
    (∀ (off : Int) (l : List Char) (g : Groups) (p : PointPNEZD)
        (ls : List (List Char)) (acc : List PointPNEZD),
      matchV2 l = some g → recordOfGroups off g = some p →
        parseLoop off (l :: ls) false acc = parseLoop off ls false (acc ++ [p])) ∧
    (∀ (off : Int) (ls : List (List Char)) (b b2 : Bool) (acc pts : List PointPNEZD),
      parseLoop off ls b acc = .ok (b2, pts) → b = true → b2 = true) ∧
    (∀ (off : Int) (l : List Char) (ls : List (List Char)) (acc : List PointPNEZD),
      matchesHeader l = true →
        parseLoop off (l :: ls) false acc = parseLoop off ls true acc) := by
  refine ⟨fun off l g p ls acc hm hr => parseLoop_cons_match hm hr,
    fun off ls b b2 acc pts h hb => parseLoop_mono h hb,
    fun off l ls acc hh => parseLoop_cons_condtrue (by simp [hh])⟩

/-- C7, witness: the example data line yields its record with the flag still
false and no header in the stream; the flag stays true on the empty tail; and
the literal header line sets the flag while adding no record. -/
theorem claim_C7_witness :
    parseLoop 0 [exampleLine] false [] = parseLoop 0 [] false [examplePoint] ∧
    (true : Bool) = true ∧
    parseLoop 0 ["ID,Geometry,Remarks,".data] false [] = parseLoop 0 [] true [] := by
  refine ⟨?_, ?_, ?_⟩
  · exact claim_C7.1 0 exampleLine exampleGroups examplePoint [] []
      matchV2_example recordOfGroups_example
  · exact claim_C7.2.1 0 [] true true [] [] (by decide) rfl
  · exact claim_C7.2.2 0 "ID,Geometry,Remarks,".data [] [] (by decide)

/-- C8: the writer emits the data line fields in the order
id, northing, easting, elevation, description; the elevation field equals
`elevation_m / METER_PER_US_SURVEY_FT` when the convert-to-feet flag is set
and `elevation_m` unchanged when it is not; all other fields are emitted as
stored in the record. -/
theorem claim_C8 (p : PointPNEZD) :
    print_line p true =
      (p.point, p.northing, p.easting, p.elevation_m / METER_PER_US_SURVEY_FT,
        p.description) ∧
    print_line p false =
      (p.point, p.northing, p.easting, p.elevation_m, p.description) :=
  ⟨rfl, rfl⟩

/-- C9: the unit rescaler writes its buffered output only after the whole
input is consumed, so if any row aborts the run (conversion failure or a
too-short row), nothing at all is emitted. -/
theorem claim_C9 {rows : List (List (List Char))}
    (h : ∃ r ∈ rows, ∃ e, processRow r = .error e) :
    unitTranslateOutput rows = [] := by
  obtain ⟨e', he'⟩ := unitTranslate_error h
  unfold unitTranslateOutput
  rw [he']

/-- C9, witness: a stream whose second row is too short (one field) emits no
output at all, although its first row is well-formed. -/
theorem claim_C9_witness :
    unitTranslateOutput [["1".data, "2".data, "3".data, "4".data, "5".data],
      [["a".data].head!]] = [] :=
  claim_C9 ⟨["a".data], by simp, "IndexError", by decide⟩

/-- C10: every record the version-2 parser produces has a comma-free
description (the capture pattern excludes the delimiter), so the data line the
writer emits for it — under any comma-free rendering of the numeric fields —
splits on commas into exactly its five fields. -/
theorem claim_C10 {off : Int} {lines : List (List Char)} {pts : List PointPNEZD}
    {p : PointPNEZD} (h : parse_points_csv off lines = .ok pts) (hp : p ∈ pts)
    (ri : Int → List Char) (rq : ℚ → List Char)
    (hri : ∀ i, ',' ∉ ri i) (hrq : ∀ q, ',' ∉ rq q) (conv : Bool) :
    ',' ∉ p.description ∧
    splitComma (print_line_chars ri rq p conv) = print_line_fields ri rq p conv ∧
    (print_line_fields ri rq p conv).length = 5 := by
  obtain ⟨b2, hb⟩ := parse_points_csv_ok.mp h
  rcases parseLoop_mem hb p hp with hacc | ⟨l, -, g, hg, hr⟩
  · exact absurd hacc (by simp)
  have hfree : ',' ∉ p.description := by
    rw [(recordOfGroups_inv hr).1]
    exact (matchV2_inv hg).1
  refine ⟨hfree, ?_, rfl⟩
  unfold print_line_chars
  apply splitComma_joinComma
  · simp [print_line_fields]
  · intro f hf
    simp only [print_line_fields, print_line, List.mem_cons,
      List.not_mem_nil, or_false] at hf
    rcases hf with rfl | rfl | rfl | rfl | rfl
    · exact hri _
    · exact hrq _
    · exact hrq _
    · exact hrq _
    · exact hfree

/-- C10, witness: the record of the example line has a comma-free description,
and with one-character renderings of the numeric fields its emitted line
splits back into exactly its five fields. -/
theorem claim_C10_witness :
    ',' ∉ examplePoint.description ∧
    splitComma (print_line_chars (fun _ => ['i']) (fun _ => ['q']) examplePoint false) =
      print_line_fields (fun _ => ['i']) (fun _ => ['q']) examplePoint false ∧
    (print_line_fields (fun _ => ['i']) (fun _ => ['q']) examplePoint false).length = 5 :=
  @claim_C10 0 [exampleLine] [examplePoint] examplePoint parse_points_csv_example
    (by simp) (fun _ => ['i']) (fun _ => ['q'])
    (fun i => (by decide : ',' ∉ ['i'])) (fun q => (by decide : ',' ∉ ['q'])) false
